import Mathlib

/-!
Verification of the webtiles server configuration loader
(`crawl-ref/source/webserver/conf.py`).

The development shallowly embeds the loader:

* game definitions are TOML tables, modelled by the structure `Game`
  (fields the loader reads; a field that may be missing from the table is
  an `Option`);
* the registry `Conf.games` is a Python dict, modelled as an
  insertion-ordered association list `List Game` keyed by `Game.id`;
* file contents reached through the external document reader are passed
  in explicitly (an environment `String → Option (Option (List GameMap))`
  for map files, parsed fragment documents as values);
* `sys.exit` / uncaught exceptions are modelled by `Option`/`Except`
  error results.
-/

namespace Webtiles

/-- A map entry of a game map file (`maps = [{name = ...}, ...]`). -/
structure GameMap where
  name : String
deriving Repr, DecidableEq

/-- A game definition table.  `id` is always read by the loader (a games
table without it would crash on `game["id"]`; we only model tables that
have one, as every claim does).  The remaining fields are optional table
keys.  `game_maps` is attached by `_load_game_map`. -/
structure Game where
  id : String
  mode : Option String := none
  version : Option String := none
  map_path : Option String := none
  score_path : Option String := none
  game_maps : Option (List GameMap) := none
deriving Repr, DecidableEq

/-- Result of parsing the file at a game's `map_path`:
`none` = the TOML parse failed, `some none` = parsed but no `maps` key,
`some (some ms)` = parsed with a `maps` list. -/
def MapEnv : Type := String → Option (Option (List GameMap))

/-- `Conf._load_game_map`: no-op without `map_path`; warn-and-skip without
`score_path`; otherwise parse the map file, `sys.exit` (here `none`) on a
parse failure or a missing `maps` key, else attach `game_maps`. -/
def loadGameMap (env : MapEnv) (g : Game) : Option Game :=
  match g.map_path with
  | none => some g
  | some p =>
    match g.score_path with
    | none => some g
    | some _ =>
      match env p with
      | none => none
      | some none => none
      | some (some ms) => some { g with game_maps := some ms }

/-- Lookup in the by-id registry (Python `self.games`, dict keyed by id,
modelled as an insertion-ordered list). -/
def findGame (reg : List Game) (i : String) : Option Game :=
  reg.find? (fun g => g.id == i)

/-- State built by `Conf.load_games`: the by-id registry (`self.games`)
and the client-facing ordered list (`self.data["games"]`). -/
structure GamesState where
  games : List Game
  dataGames : List Game
deriving Repr, DecidableEq

/-- One pass of game registration (`_load_game_data` in a loop).
For each game: a duplicate id is dropped with a warning; otherwise
`_load_game_map` runs (fatal = `none`) and the game is registered and
appended to the client-facing list.  `keepDup` says whether the
client-facing list keeps a dropped duplicate: it does for the inline
primary pass (there `self.data["games"]` is the walked list itself, with
registered entries mutated in place by `_load_game_map`, so we rebuild
it entry by entry), and it does not for fragment games, which
`_load_game_conf_dir` appends only after a successful registration. -/
def processGameList (env : MapEnv) (keepDup : Bool) :
    GamesState → List Game → Option GamesState
  | st, [] => some st
  | st, g :: rest =>
    match findGame st.games g.id with
    | some _ =>
      processGameList env keepDup
        { st with dataGames := if keepDup then st.dataGames ++ [g] else st.dataGames } rest
    | none =>
      match loadGameMap env g with
      | none => none
      | some g' =>
        processGameList env keepDup
          { games := st.games ++ [g'], dataGames := st.dataGames ++ [g'] } rest

/-- A parsed fragment file of `games_conf_d`: `none` = open/parse failure
(fatal), `some none` = no `games` section (skipped with a warning),
`some (some gs)` = its games list.  The list of fragments is given in
lexicographic filename order, as `sorted(glob.glob(...))` produces. -/
def Fragment : Type := Option (Option (List Game))

/-- `Conf._load_game_conf_dir`: fold the fragment files in order. -/
def loadFragments (env : MapEnv) : GamesState → List Fragment → Option GamesState
  | st, [] => some st
  | _, none :: _ => none
  | st, some none :: rest => loadFragments env st rest
  | st, some (some gs) :: rest =>
    match processGameList env false st gs with
    | none => none
    | some st' => loadFragments env st' rest

/-- `Conf.load_games`: primary inline games first (the parsed `games`
list doubles as the client-facing list; absent key = empty list), then
the fragment directory. -/
def loadGames (env : MapEnv) (primary : Option (List Game))
    (fragments : List Fragment) : Option GamesState :=
  match processGameList env true ⟨[], []⟩ (primary.getD []) with
  | none => none
  | some st => loadFragments env st fragments

/-- The games contributed by fragment files, in file order. -/
def fragGames : List Fragment → List Game
  | [] => []
  | none :: rest => fragGames rest
  | some none :: rest => fragGames rest
  | some (some gs) :: rest => gs ++ fragGames rest

/-- All game definitions in registration-attempt order: primary inline
games first, then fragment games in lexicographic file order. -/
def allDeclared (primary : Option (List Game)) (fragments : List Fragment) : List Game :=
  primary.getD [] ++ fragGames fragments

/-- `Conf.get_game(game_version, game_mode)`: walk the registry, skip a
game lacking a `mode` or `version` key, return the first whose two fields
match, else `None` (also for an empty registry). -/
def getGame : List Game → String → String → Option Game
  | [], _, _ => none
  | g :: rest, v, m =>
    match g.mode, g.version with
    | some gm, some gv =>
      if gm == m && gv == v then some g else getGame rest v m
    | _, _ => getGame rest v m

/-- The matching predicate of `get_game`: both fields present and equal
to the arguments. -/
def gameMatches (m v : String) (g : Game) : Bool :=
  match g.mode, g.version with
  | some gm, some gv => gm == m && gv == v
  | _, _ => false

/-- `Conf.game_map(game_id, map_name)`: `self.games[game_id]` raises
`KeyError` (here `Except.error ()`) for an unregistered id; otherwise
`None` without a `game_maps` key, else the first map whose `name`
matches, else `None`. -/
def gameMap (reg : List Game) (gameId mapName : String) :
    Except Unit (Option GameMap) :=
  match findGame reg gameId with
  | none => .error ()
  | some g =>
    match g.game_maps with
    | none => .ok none
    | some ms => .ok (ms.find? (fun m => m.name == mapName))

/-! ### Identity sets, rosters and the player classifier -/

/-- Python truthiness of an optional list value (`if self.get(key):`):
an absent key and an empty list are both falsy. -/
def pyTruthy {α : Type} (o : Option (List α)) : Bool :=
  match o with
  | none => false
  | some l => !l.isEmpty

/-- Python `str.lower` (over the basic-latin range, like the stdlib's
`String.toLower`, which is extensionally the same function but recurses
by well-founded recursion on byte positions that the kernel cannot
evaluate; this structural version maps over the character list). -/
def pyLower (s : String) : String := String.mk (s.data.map Char.toLower)

/-- Python dict assignment on an insertion-ordered association list:
replace in place if the key exists, else append. -/
def assocSet {β : Type} : List (String × β) → String → β → List (String × β)
  | [], k, v => [(k, v)]
  | (k0, v0) :: rest, k, v =>
    if k0 == k then (k, v) :: rest else (k0, v0) :: assocSet rest k v

/-- Python `d[k]` / `k in d` lookup on the association list. -/
def assocFind {β : Type} (l : List (String × β)) (k : String) : Option β :=
  (l.find? (fun p => p.1 == k)).map (fun p => p.2)

/-- Errors of `Conf.load`: an uncaught `AttributeError` (reading
`self.admins`/`self.janitors` when the config key was absent or falsy, so
the attribute was never assigned) or an uncaught `IndexError`
(`row[0]` on a zero-token csv row, which is what a blank roster line
produces). -/
inductive LoadErr where
  | attrError (name : String)
  | indexError
deriving Repr, DecidableEq

/-- The identity state assembled by `Conf.load`:
`admins`/`janitors` are Python sets of usernames (modelled as lists, with
set membership as list membership), `devteam` maps a canonical developer
name (original case) to its lowercased alternates, `playerTitles` maps a
lowercased title name to the lowercased holders. -/
structure IdState where
  admins : List String
  janitors : List String
  devteam : List (String × List String)
  playerTitles : List (String × List String)
deriving Repr, DecidableEq

/-- The keys of the primary config document that `Conf.load` reads for
identity data.  Roster file contents are passed as already-csv-split
token rows (the file reader and csv module are external collaborators);
`none` means the config key is absent. -/
structure PrimaryConfig where
  server_admins : Option (List String) := none
  server_janitors : Option (List String) := none
  devteam_file : Option (List (List String)) := none
  devs_are_server_janitors : Bool := false
  title_names : Option (List String) := none
  player_title_file : Option (List (List String)) := none
deriving Repr, DecidableEq

/-- The devteam loop of `Conf.load`: for each row,
`self.devteam[row[0]] = [u.lower() for u in row[1:]]` (IndexError on a
zero-token row), and when `devs_are_server_janitors` is set,
`self.janitors.update(row)` -- note: the raw row, case intact. -/
def processDevRows (dj : Bool) :
    List (List String) → List (String × List String) → List String →
    Except LoadErr (List (String × List String) × List String)
  | [], dt, jan => .ok (dt, jan)
  | row :: rest, dt, jan =>
    match row with
    | [] => .error .indexError
    | r0 :: rtl =>
      processDevRows dj rest (assocSet dt r0 (rtl.map pyLower))
        (if dj then jan ++ (r0 :: rtl) else jan)

/-- The row loop of `Conf.load_player_titles`:
`self.player_titles[row[0].lower()] = [u.lower() for u in row[1:]]`
(IndexError on a zero-token row). -/
def processTitleRows :
    List (List String) → List (String × List String) →
    Except LoadErr (List (String × List String))
  | [], pt => .ok pt
  | row :: rest, pt =>
    match row with
    | [] => .error .indexError
    | r0 :: rtl =>
      processTitleRows rest (assocSet pt (pyLower r0) (rtl.map pyLower))

/-- The identity part of `Conf.load` (lines 75-99 plus
`load_player_titles`).  `self.admins` / `self.janitors` are only assigned
when the corresponding key is truthy; `self.janitors.update(self.admins)`
then raises `AttributeError` if either is unassigned (`janitors` is
looked up first).  When `title_names` or `player_title_file` is falsy,
`load_player_titles` returns without assigning `self.player_titles`; we
model that state as the empty mapping (all claims only read it when it
was configured). -/
def loadIdentity (cfg : PrimaryConfig) : Except LoadErr IdState :=
  match (if pyTruthy cfg.server_janitors
         then some ((cfg.server_janitors.getD []).map pyLower) else none),
        (if pyTruthy cfg.server_admins
         then some ((cfg.server_admins.getD []).map pyLower) else none) with
  | none, _ => .error (.attrError "janitors")
  | some _, none => .error (.attrError "admins")
  | some js, some ads =>
    match (match cfg.devteam_file with
           | none => Except.ok (([] : List (String × List String)), js ++ ads)
           | some rows =>
             processDevRows cfg.devs_are_server_janitors rows [] (js ++ ads)) with
    | .error e => .error e
    | .ok (dt, jan) =>
      match (if pyTruthy cfg.title_names && cfg.player_title_file.isSome
             then processTitleRows (cfg.player_title_file.getD []) []
             else .ok []) with
      | .error e => .error e
      | .ok pt => .ok ⟨ads, jan, dt, pt⟩

/-- `Conf.is_server_admin`: `self.admins and username.lower() in
self.admins` (an empty set short-circuits to a falsy value). -/
def isServerAdmin (st : IdState) (username : String) : Bool :=
  if st.admins.isEmpty then false else st.admins.contains (pyLower username)

/-- `Conf.is_server_janitor`: same shape over the janitors set. -/
def isServerJanitor (st : IdState) (username : String) : Bool :=
  if st.janitors.isEmpty then false else st.janitors.contains (pyLower username)

/-- `Conf.get_devname`: `None` for an empty devteam, else the first
canonical key whose lowercase form equals the lowercased username or
whose alternate list contains it. -/
def getDevname (st : IdState) (username : String) : Option String :=
  let lname := pyLower username
  if st.devteam.isEmpty then none
  else (st.devteam.find? (fun p => pyLower p.1 == lname || p.2.contains lname)).map
    (fun p => p.1)

/-- `Conf._get_player_title`: `None` for an empty title mapping or falsy
`title_names`; otherwise scan `title_names` in configured order, skip a
name that is not a key of `player_titles` (keys were lowercased at load
time, the scan compares exactly), and keep overwriting with each title
that contains the lowercased username -- the last match wins. -/
def getPlayerTitle (st : IdState) (titleNames : Option (List String))
    (username : String) : Option String :=
  if st.playerTitles.isEmpty then none
  else if !pyTruthy titleNames then none
  else
    (titleNames.getD []).foldl
      (fun title t =>
        match assocFind st.playerTitles t with
        | none => title
        | some members =>
          if members.contains (pyLower username) then some t else title)
      none

/-- Result of `Conf.get_nerd`. -/
structure Nerd where
  type : String
  devname : Option String
deriving Repr, DecidableEq

/-- Python truthiness of an optional string (`if devname:` / `if title:`). -/
def strTruthy (o : Option String) : Bool :=
  match o with
  | none => false
  | some s => !s.isEmpty

/-- `Conf.get_nerd`: admin check, then devteam, then player title, else
`normal`. -/
def getNerd (st : IdState) (titleNames : Option (List String))
    (username : String) : Nerd :=
  if isServerAdmin st username then ⟨"admins", none⟩
  else
    let devname := getDevname st username
    if strTruthy devname then ⟨"devteam", devname⟩
    else
      let title := getPlayerTitle st titleNames username
      match title with
      | some t => if t.isEmpty then ⟨"normal", none⟩ else ⟨t, none⟩
      | none => ⟨"normal", none⟩

/-- Whether a configured title name matches for a user: the title is a
key of the loaded (lowercased-key) mapping and the user is among its
holders.  Used to state the last-match-wins property. -/
def titleHas (st : IdState) (username t : String) : Bool :=
  match assocFind st.playerTitles t with
  | none => false
  | some members => members.contains (pyLower username)

/-! ### Janitor commands and format-string field extraction -/

/-- Errors of `Conf.load_janitor_commands`: `sys.exit(1)` after the
"Janitor command entries must have ... defined" log line (we record the
offending field name), or the uncaught `ValueError` that
`string.Formatter().parse` raises on a malformed template. -/
inductive JanErr where
  | missingField (f : String)
  | valueError (msg : String)
deriving Repr, DecidableEq

/-- A `[[janitor_commands]]` entry: a table whose four recognized fields
may each be missing. -/
structure CmdDef where
  id : Option String := none
  name : Option String := none
  action : Option String := none
  argument : Option String := none
deriving Repr, DecidableEq

/-- A validated janitor command with its extracted parameter set
(a Python set of strings, modelled as a duplicate-free list with
membership as the set semantics). -/
structure JanitorCommand where
  id : String
  name : String
  action : String
  argument : String
  params : List String
deriving Repr, DecidableEq

/-- The first missing required field of a command entry, in the order
the loader checks them: `id`, `name`, `action`, `argument`. -/
def requiredMissing (c : CmdDef) : Option String :=
  if c.id.isNone then some "id"
  else if c.name.isNone then some "name"
  else if c.action.isNone then some "action"
  else if c.argument.isNone then some "argument"
  else none

/-- Scanner state of `string.Formatter().parse` (CPython's
`formatter_parser`): in literal text, inside a replacement field name,
inside a format spec (with brace nesting depth), just after `!`, or
after the conversion character. -/
inductive FmtMode where
  | lit
  | field (acc : List Char)
  | spec (name : String) (depth : Nat)
  | conv (name : String)
  | afterConv (name : String)
deriving Repr, DecidableEq

/-- One-character-at-a-time scan of a format string, returning the field
names of its replacement fields in order (`""` for `\x7b\x7d`), or the
`ValueError` message for a malformed template. -/
def fmtScan : FmtMode → List Char → Except String (List String)
  | .lit, [] => .ok []
  | .lit, '{' :: '{' :: rest => fmtScan .lit rest
  | .lit, '}' :: '}' :: rest => fmtScan .lit rest
  | .lit, c :: rest =>
    if c == '{' then fmtScan (.field []) rest
    else if c == '}' then
      .error "single close brace encountered in format string"
    else fmtScan .lit rest
  | .field _, [] => .error "expected close brace before end of string"
  | .field acc, c :: rest =>
    if c == '}' then (fmtScan .lit rest).map (fun ns => String.mk acc.reverse :: ns)
    else if c == ':' then fmtScan (.spec (String.mk acc.reverse) 0) rest
    else if c == '!' then fmtScan (.conv (String.mk acc.reverse)) rest
    else fmtScan (.field (c :: acc)) rest
  | .spec _ _, [] => .error "unmatched open brace in format string"
  | .spec nm d, c :: rest =>
    if c == '{' then fmtScan (.spec nm (d + 1)) rest
    else if c == '}' then
      match d with
      | 0 => (fmtScan .lit rest).map (fun ns => nm :: ns)
      | d' + 1 => fmtScan (.spec nm d') rest
    else fmtScan (.spec nm d) rest
  | .conv _, [] => .error "end of string while looking for conversion specifier"
  | .conv nm, _ :: rest => fmtScan (.afterConv nm) rest
  | .afterConv _, [] => .error "unmatched open brace in format string"
  | .afterConv nm, c :: rest =>
    if c == '}' then (fmtScan .lit rest).map (fun ns => nm :: ns)
    else if c == ':' then fmtScan (.spec nm 0) rest
    else .error "expected colon or close brace after conversion specifier"

/-- The field names yielded by `string.Formatter().parse(s)`, in order. -/
def fieldTokens (s : String) : Except String (List String) :=
  fmtScan .lit s.data

/-- Python set insertion, preserving the duplicate-free list model. -/
def setInsert (l : List String) (x : String) : List String :=
  if l.contains x then l else l ++ [x]

/-- The params loop: `for token in Formatter().parse(argument): if
token[1]: params.add(token[1])` -- only truthy (nonempty) field names
are added. -/
def extractParams (fields : List String) : List String :=
  fields.foldl (fun ps t => if t.isEmpty then ps else setInsert ps t) []

/-- The command loop of `Conf.load_janitor_commands`: validate the four
required fields in order (fatal, reporting the first missing one), then
extract params (an uncaught `ValueError` on a malformed template), then
`self.janitor_commands[cmd["id"]] = cmd` (a later duplicate id
overwrites). -/
def jcGo : List CmdDef → List (String × JanitorCommand) →
    Except JanErr (List (String × JanitorCommand))
  | [], tbl => .ok tbl
  | c :: rest, tbl =>
    match c.id with
    | none => .error (.missingField "id")
    | some i =>
      match c.name with
      | none => .error (.missingField "name")
      | some n =>
        match c.action with
        | none => .error (.missingField "action")
        | some a =>
          match c.argument with
          | none => .error (.missingField "argument")
          | some arg =>
            match fieldTokens arg with
            | .error m => .error (.valueError m)
            | .ok toks =>
              jcGo rest (assocSet tbl i ⟨i, n, a, arg, extractParams toks⟩)

/-- `Conf.load_janitor_commands`: an absent or empty `janitor_commands`
key yields the empty table. -/
def loadJanitorCommands (cmds : Option (List CmdDef)) :
    Except JanErr (List (String × JanitorCommand)) :=
  if !pyTruthy cmds then .ok []
  else jcGo (cmds.getD []) []

/-! ### Concrete instances used by witnesses and counterexamples -/

/-- A map-file environment with no readable map files (never consulted
by games without a `map_path`). -/
def noMaps : MapEnv := fun _ => none

def gameA1 : Game := { id := "a", mode := some "m1", version := some "v1" }

def gameA2 : Game := { id := "a", mode := some "m2", version := some "v2" }

def gameA3 : Game := { id := "a", mode := some "m3", version := some "v3" }

def gameB : Game := { id := "b", mode := some "mb", version := some "vb" }

/-- A primary config that omits `server_admins` (so `self.admins` is
never assigned) but defines `server_janitors`. -/
def cfgNoAdmins : PrimaryConfig := { server_janitors := some ["jan"] }

/-- Devteam roster row `Foo Bar` with `devs_are_server_janitors`
enabled. -/
def cfgDevJan : PrimaryConfig :=
  { server_admins := some ["adm"]
    server_janitors := some ["jan"]
    devteam_file := some [["Foo", "Bar"]]
    devs_are_server_janitors := true }

/-- Title config of the spec's precedence example: capitalized
`title_names`, a roster placing `alice` under both titles. -/
def cfgTitles : PrimaryConfig :=
  { server_admins := some ["adminx"]
    server_janitors := some ["janx"]
    title_names := some ["Slayer", "Champion"]
    player_title_file := some [["Slayer", "alice"], ["Champion", "alice"]] }

/-- The same config with lowercase `title_names`, matching the
lowercased roster keys. -/
def cfgTitlesLower : PrimaryConfig :=
  { server_admins := some ["adminx"]
    server_janitors := some ["janx"]
    title_names := some ["slayer", "champion"]
    player_title_file := some [["Slayer", "alice"], ["Champion", "alice"]] }

/-- A devteam roster containing a blank line (zero-token row, as the csv
reader yields for an empty line). -/
def cfgBlankRow : PrimaryConfig :=
  { server_admins := some ["adm"]
    server_janitors := some ["jan"]
    devteam_file := some [["dev", "alt"], []] }

/-- The spec example command `argument = "ban {target} for {reason}"`. -/
def cmdBan : CmdDef :=
  { id := some "c1"
    name := some "n1"
    action := some "a1"
    argument := some "ban {target} for {reason}" }

/-- The spec example command with a template without fields. -/
def cmdList : CmdDef :=
  { id := some "c2"
    name := some "n2"
    action := some "a2"
    argument := some "list" }

/-- All four fields present, but a malformed template (an unclosed
brace). -/
def cmdBadTemplate : CmdDef :=
  { id := some "i"
    name := some "n"
    action := some "a"
    argument := some "\x7bx" }

/-- A command definition missing its `id` field. -/
def cmdNoId : CmdDef :=
  { name := some "x"
    action := some "y"
    argument := some "z" }

/-- The identity state `loadIdentity cfgDevJan` produces: the devteam
row's raw tokens went into the janitors set case-intact. -/
def stDevJan : IdState :=
  ⟨["adm"], ["jan", "adm", "Foo", "Bar"], [("Foo", ["bar"])], []⟩

/-- The identity state produced by `cfgTitles` (and `cfgTitlesLower`):
the title roster keys were lowercased at load time. -/
def stTitles : IdState :=
  ⟨["adminx"], ["janx", "adminx"], [],
   [("slayer", ["alice"]), ("champion", ["alice"])]⟩

/-! ### Basic lemmas about the registry -/

/-- First-some choice on options (used to state lookup decompositions). -/
def optOr {α : Type} : Option α → Option α → Option α
  | some x, _ => some x
  | none, b => b

@[simp] theorem optOr_some {α : Type} (x : α) (b : Option α) :
    optOr (some x) b = some x := rfl

@[simp] theorem optOr_none {α : Type} (b : Option α) : optOr none b = b := rfl

theorem loadGameMap_id (env : MapEnv) (g g' : Game)
    (h : loadGameMap env g = some g') : g'.id = g.id := by
  unfold loadGameMap at h
  cases hmp : g.map_path with
  | none => simp [hmp] at h; simp [← h]
  | some p =>
    cases hsp : g.score_path with
    | none => simp [hmp, hsp] at h; simp [← h]
    | some s =>
      cases he : env p with
      | none => simp [hmp, hsp, he] at h
      | some o =>
        cases o with
        | none => simp [hmp, hsp, he] at h
        | some ms => simp [hmp, hsp, he] at h; simp [← h]

theorem find?_append {α : Type} (p : α → Bool) (l₁ l₂ : List α) :
    (l₁ ++ l₂).find? p = optOr (l₁.find? p) (l₂.find? p) := by
  induction l₁ with
  | nil => simp
  | cons a l ih =>
    by_cases h : p a = true
    · simp [List.find?, h]
    · simp only [Bool.not_eq_true] at h
      simp [List.find?, h, ih]

theorem findGame_append (l₁ l₂ : List Game) (i : String) :
    findGame (l₁ ++ l₂) i = optOr (findGame l₁ i) (findGame l₂ i) :=
  find?_append _ l₁ l₂

theorem findGame_singleton (g : Game) (i : String) :
    findGame [g] i = if g.id == i then some g else none := by
  by_cases h : g.id = i
  · simp [findGame, List.find?, h]
  · have hb : (g.id == i) = false := by simp [h]
    simp [findGame, List.find?, hb]

theorem findGame_eq_none (reg : List Game) (i : String) :
    findGame reg i = none ↔ ∀ g ∈ reg, g.id ≠ i := by
  simp [findGame, List.find?_eq_none]

theorem nodup_concat {α : Type} (l : List α) (a : α)
    (hl : l.Nodup) (ha : a ∉ l) : (l ++ [a]).Nodup := by
  simp [List.nodup_append, hl, ha]

/-! ### Invariants of one registration pass -/

theorem processGameList_preserve (env : MapEnv) (kd : Bool) :
    ∀ (gs : List Game) (st st' : GamesState),
    processGameList env kd st gs = some st' →
    ∀ i x, findGame st.games i = some x → findGame st'.games i = some x := by
  intro gs
  induction gs with
  | nil =>
    intro st st' h i x hx
    simp only [processGameList, Option.some.injEq] at h
    exact h ▸ hx
  | cons g rest ih =>
    intro st st' h i x hx
    simp only [processGameList] at h
    cases hreg : findGame st.games g.id with
    | some y =>
      rw [hreg] at h
      exact ih _ _ h i x hx
    | none =>
      rw [hreg] at h
      cases hm : loadGameMap env g with
      | none => rw [hm] at h; cases h
      | some g' =>
        rw [hm] at h
        refine ih _ _ h i x ?_
        show findGame (st.games ++ [g']) i = some x
        rw [findGame_append, hx]
        rfl

theorem processGameList_lookup_new (env : MapEnv) (kd : Bool) :
    ∀ (gs : List Game) (st st' : GamesState),
    processGameList env kd st gs = some st' →
    ∀ i, findGame st.games i = none →
    findGame st'.games i = (gs.find? (fun g => g.id == i)).bind (loadGameMap env) := by
  intro gs
  induction gs with
  | nil =>
    intro st st' h i hi
    simp only [processGameList, Option.some.injEq] at h
    simp [← h, hi]
  | cons g rest ih =>
    intro st st' h i hi
    simp only [processGameList] at h
    cases hreg : findGame st.games g.id with
    | some y =>
      rw [hreg] at h
      have hne : g.id ≠ i := by
        intro he
        rw [he, hi] at hreg
        cases hreg
      have hp : (g.id == i) = false := by simp [hne]
      rw [show List.find? (fun x => x.id == i) (g :: rest)
            = List.find? (fun x => x.id == i) rest from by simp [List.find?, hp]]
      exact ih _ _ h i hi
    | none =>
      rw [hreg] at h
      cases hm : loadGameMap env g with
      | none => rw [hm] at h; cases h
      | some g' =>
        rw [hm] at h
        by_cases hgi : g.id = i
        · have hp : (g.id == i) = true := by simp [hgi]
          rw [show List.find? (fun x => x.id == i) (g :: rest) = some g from by
                simp [List.find?, hp]]
          rw [show (some g).bind (loadGameMap env) = some g' from by simp [hm]]
          refine processGameList_preserve env kd rest _ _ h i g' ?_
          show findGame (st.games ++ [g']) i = some g'
          rw [findGame_append, hi, optOr_none, findGame_singleton]
          simp [loadGameMap_id env g g' hm, hgi]
        · have hp : (g.id == i) = false := by simp [hgi]
          rw [show List.find? (fun x => x.id == i) (g :: rest)
                = List.find? (fun x => x.id == i) rest from by simp [List.find?, hp]]
          refine ih _ _ h i ?_
          show findGame (st.games ++ [g']) i = none
          rw [findGame_append, hi, optOr_none, findGame_singleton]
          simp [loadGameMap_id env g g' hm, hgi]

theorem processGameList_attempt_ok (env : MapEnv) (kd : Bool) :
    ∀ (gs : List Game) (st st' : GamesState),
    processGameList env kd st gs = some st' →
    ∀ i g, findGame st.games i = none →
    gs.find? (fun x => x.id == i) = some g →
    (loadGameMap env g).isSome := by
  intro gs
  induction gs with
  | nil =>
    intro st st' _ i g _ hfind
    cases hfind
  | cons g0 rest ih =>
    intro st st' h i g hi hfind
    simp only [processGameList] at h
    cases hreg : findGame st.games g0.id with
    | some y =>
      rw [hreg] at h
      have hne : g0.id ≠ i := by
        intro he
        rw [he, hi] at hreg
        cases hreg
      have hp : (g0.id == i) = false := by simp [hne]
      rw [show List.find? (fun x => x.id == i) (g0 :: rest)
            = List.find? (fun x => x.id == i) rest from by simp [List.find?, hp]] at hfind
      exact ih _ _ h i g hi hfind
    | none =>
      rw [hreg] at h
      cases hm : loadGameMap env g0 with
      | none => rw [hm] at h; cases h
      | some g' =>
        rw [hm] at h
        by_cases hgi : g0.id = i
        · have hp : (g0.id == i) = true := by simp [hgi]
          rw [show List.find? (fun x => x.id == i) (g0 :: rest) = some g0 from by
                simp [List.find?, hp]] at hfind
          cases hfind
          simp [hm]
        · have hp : (g0.id == i) = false := by simp [hgi]
          rw [show List.find? (fun x => x.id == i) (g0 :: rest)
                = List.find? (fun x => x.id == i) rest from by simp [List.find?, hp]] at hfind
          refine ih _ _ h i g ?_ hfind
          show findGame (st.games ++ [g']) i = none
          rw [findGame_append, hi, optOr_none, findGame_singleton]
          simp [loadGameMap_id env g0 g' hm, hgi]

theorem processGameList_nodup (env : MapEnv) (kd : Bool) :
    ∀ (gs : List Game) (st st' : GamesState),
    processGameList env kd st gs = some st' →
    (st.games.map Game.id).Nodup → (st'.games.map Game.id).Nodup := by
  intro gs
  induction gs with
  | nil =>
    intro st st' h hn
    simp only [processGameList, Option.some.injEq] at h
    exact h ▸ hn
  | cons g rest ih =>
    intro st st' h hn
    simp only [processGameList] at h
    cases hreg : findGame st.games g.id with
    | some y =>
      rw [hreg] at h
      exact ih _ _ h hn
    | none =>
      rw [hreg] at h
      cases hm : loadGameMap env g with
      | none => rw [hm] at h; cases h
      | some g' =>
        rw [hm] at h
        refine ih _ _ h ?_
        show ((st.games ++ [g']).map Game.id).Nodup
        rw [List.map_append]
        refine nodup_concat _ _ hn ?_
        rw [loadGameMap_id env g g' hm]
        intro hmem
        obtain ⟨x, hx, hxid⟩ := List.mem_map.mp hmem
        exact (findGame_eq_none st.games g.id).mp hreg x hx hxid

theorem processGameList_total (env : MapEnv) (kd : Bool) :
    ∀ (gs : List Game) (st : GamesState),
    (∀ g ∈ gs, (loadGameMap env g).isSome) →
    (processGameList env kd st gs).isSome := by
  intro gs
  induction gs with
  | nil =>
    intro st _
    simp [processGameList]
  | cons g rest ih =>
    intro st hall
    simp only [processGameList]
    cases hreg : findGame st.games g.id with
    | some y => exact ih _ (fun x hx => hall x (List.mem_cons_of_mem _ hx))
    | none =>
      cases hm : loadGameMap env g with
      | none =>
        have := hall g (List.mem_cons_self _ _)
        rw [hm] at this
        cases this
      | some g' => exact ih _ (fun x hx => hall x (List.mem_cons_of_mem _ hx))

/-! ### Invariants of the fragment-directory pass -/

theorem loadFragments_preserve (env : MapEnv) :
    ∀ (fs : List Fragment) (st st' : GamesState),
    loadFragments env st fs = some st' →
    ∀ i x, findGame st.games i = some x → findGame st'.games i = some x := by
  intro fs
  induction fs with
  | nil =>
    intro st st' h i x hx
    simp only [loadFragments, Option.some.injEq] at h
    exact h ▸ hx
  | cons f rest ih =>
    intro st st' h i x hx
    cases f with
    | none => cases h
    | some o =>
      cases o with
      | none => exact ih _ _ h i x hx
      | some gs =>
        simp only [loadFragments] at h
        cases hp : processGameList env false st gs with
        | none => rw [hp] at h; cases h
        | some st1 =>
          rw [hp] at h
          exact ih _ _ h i x (processGameList_preserve env false gs st st1 hp i x hx)

theorem loadFragments_lookup_new (env : MapEnv) :
    ∀ (fs : List Fragment) (st st' : GamesState),
    loadFragments env st fs = some st' →
    ∀ i, findGame st.games i = none →
    findGame st'.games i
      = ((fragGames fs).find? (fun g => g.id == i)).bind (loadGameMap env) := by
  intro fs
  induction fs with
  | nil =>
    intro st st' h i hi
    simp only [loadFragments, Option.some.injEq] at h
    simp [← h, fragGames, hi]
  | cons f rest ih =>
    intro st st' h i hi
    cases f with
    | none => cases h
    | some o =>
      cases o with
      | none =>
        show findGame st'.games i
          = ((fragGames rest).find? (fun g => g.id == i)).bind (loadGameMap env)
        exact ih _ _ h i hi
      | some gs =>
        simp only [loadFragments] at h
        cases hp : processGameList env false st gs with
        | none => rw [hp] at h; cases h
        | some st1 =>
          rw [hp] at h
          have hlook := processGameList_lookup_new env false gs st st1 hp i hi
          have hfrag : fragGames (some (some gs) :: rest) = gs ++ fragGames rest := rfl
          rw [hfrag, find?_append]
          cases hfind : gs.find? (fun g => g.id == i) with
          | none =>
            rw [hfind] at hlook
            simp only [Option.none_bind] at hlook
            rw [optOr_none]
            exact ih _ _ h i hlook
          | some g =>
            have hs := processGameList_attempt_ok env false gs st st1 hp i g hi hfind
            obtain ⟨g', hm⟩ := Option.isSome_iff_exists.mp hs
            rw [hfind] at hlook
            simp only [Option.some_bind] at hlook
            rw [hm] at hlook
            rw [optOr_some]
            simp only [Option.some_bind]
            rw [hm]
            exact loadFragments_preserve env rest st1 st' h i g' hlook

theorem loadFragments_nodup (env : MapEnv) :
    ∀ (fs : List Fragment) (st st' : GamesState),
    loadFragments env st fs = some st' →
    (st.games.map Game.id).Nodup → (st'.games.map Game.id).Nodup := by
  intro fs
  induction fs with
  | nil =>
    intro st st' h hn
    simp only [loadFragments, Option.some.injEq] at h
    exact h ▸ hn
  | cons f rest ih =>
    intro st st' h hn
    cases f with
    | none => cases h
    | some o =>
      cases o with
      | none => exact ih _ _ h hn
      | some gs =>
        simp only [loadFragments] at h
        cases hp : processGameList env false st gs with
        | none => rw [hp] at h; cases h
        | some st1 =>
          rw [hp] at h
          exact ih _ _ h (processGameList_nodup env false gs st st1 hp hn)

theorem loadFragments_total (env : MapEnv) :
    ∀ (fs : List Fragment) (st : GamesState),
    (∀ f ∈ fs, f ≠ none) →
    (∀ g ∈ fragGames fs, (loadGameMap env g).isSome) →
    (loadFragments env st fs).isSome := by
  intro fs
  induction fs with
  | nil =>
    intro st _ _
    simp [loadFragments]
  | cons f rest ih =>
    intro st hf hm
    cases f with
    | none => exact absurd rfl (hf none (List.mem_cons_self _ _))
    | some o =>
      cases o with
      | none =>
        exact ih _ (fun x hx => hf x (List.mem_cons_of_mem _ hx)) hm
      | some gs =>
        simp only [loadFragments]
        have hfg : fragGames (some (some gs) :: rest) = gs ++ fragGames rest := rfl
        have hgs : ∀ g ∈ gs, (loadGameMap env g).isSome := by
          intro g hg
          refine hm g ?_
          rw [hfg]
          exact List.mem_append_left _ hg
        obtain ⟨st1, hp⟩ := Option.isSome_iff_exists.mp
          (processGameList_total env false gs st hgs)
        rw [hp]
        refine ih _ (fun x hx => hf x (List.mem_cons_of_mem _ hx)) (fun g hg => ?_)
        refine hm g ?_
        rw [hfg]
        exact List.mem_append_right _ hg

/-! ### Claim C1: duplicate game ids -/

/-- C1: duplicate game ids are rejected first-seen-wins.  Whenever
`load_games` succeeds, the by-id registry has no duplicate ids and maps
every id to the first definition declared for it -- primary inline games
before any fragment game, later definitions dropped -- with its map data
attached by `_load_game_map`.  Moreover duplicates never fail the load:
it succeeds whenever every fragment parses and every declared game's map
load succeeds (conditions independent of duplication). -/
theorem duplicate_game_ids_first_seen_wins (env : MapEnv)
    (primary : Option (List Game)) (fragments : List Fragment) :
    (∀ st, loadGames env primary fragments = some st →
      (st.games.map Game.id).Nodup ∧
      ∀ i, findGame st.games i
        = ((allDeclared primary fragments).find? (fun g => g.id == i)).bind
            (loadGameMap env)) ∧
    ((∀ f ∈ fragments, f ≠ none) →
     (∀ g ∈ allDeclared primary fragments, (loadGameMap env g).isSome) →
     ∃ st, loadGames env primary fragments = some st) := by
  constructor
  · intro st h
    simp only [loadGames] at h
    cases hp : processGameList env true ⟨[], []⟩ (primary.getD []) with
    | none => rw [hp] at h; cases h
    | some st1 =>
      rw [hp] at h
      constructor
      · refine loadFragments_nodup env fragments st1 st h ?_
        exact processGameList_nodup env true _ _ _ hp (by simp)
      · intro i
        have hi0 : findGame (⟨[], []⟩ : GamesState).games i = none := rfl
        have hlook1 := processGameList_lookup_new env true _ _ _ hp i hi0
        unfold allDeclared
        rw [find?_append]
        cases hfind : (primary.getD []).find? (fun g => g.id == i) with
        | some g =>
          have hs := processGameList_attempt_ok env true _ _ _ hp i g hi0 hfind
          obtain ⟨g', hm⟩ := Option.isSome_iff_exists.mp hs
          rw [hfind] at hlook1
          simp only [Option.some_bind] at hlook1
          rw [hm] at hlook1
          rw [optOr_some]
          simp only [Option.some_bind]
          rw [hm]
          exact loadFragments_preserve env fragments st1 st h i g' hlook1
        | none =>
          rw [hfind] at hlook1
          simp only [Option.none_bind] at hlook1
          rw [optOr_none]
          exact loadFragments_lookup_new env fragments st1 st h i hlook1
  · intro hf hmaps
    have hprim : ∀ g ∈ primary.getD [], (loadGameMap env g).isSome := by
      intro g hg
      exact hmaps g (List.mem_append_left _ hg)
    obtain ⟨st1, hp⟩ := Option.isSome_iff_exists.mp
      (processGameList_total env true (primary.getD []) ⟨[], []⟩ hprim)
    have hfragmem : ∀ g ∈ fragGames fragments, (loadGameMap env g).isSome := by
      intro g hg
      exact hmaps g (List.mem_append_right _ hg)
    obtain ⟨st, hl⟩ := Option.isSome_iff_exists.mp
      (loadFragments_total env fragments st1 hf hfragmem)
    refine ⟨st, ?_⟩
    simp only [loadGames]
    rw [hp]
    exact hl

/-- Witness for the first-seen-wins theorem: a load with the id `"a"`
declared twice inline and once more in a fragment succeeds, its registry
ids are duplicate-free, and the registry maps `"a"` to the first inline
definition. -/
theorem duplicate_game_ids_first_seen_wins_witness :
    ∃ st, loadGames noMaps (some [gameA1, gameA2]) [some (some [gameA3])] = some st ∧
      (st.games.map Game.id).Nodup ∧ findGame st.games "a" = some gameA1 := by
  have h := duplicate_game_ids_first_seen_wins noMaps
    (some [gameA1, gameA2]) [some (some [gameA3])]
  obtain ⟨st, hst⟩ := h.2
    (by intro f hf; simp at hf; subst hf; simp)
    (by intro g hg
        simp [allDeclared, fragGames] at hg
        rcases hg with hg | hg | hg <;> subst hg <;> rfl)
  refine ⟨st, hst, ((h.1 st hst).1), ?_⟩
  rw [(h.1 st hst).2 "a"]
  rfl

/-! ### Claim C9: the client-facing list is not kept consistent with the
registry for inline duplicates -/

theorem processGameList_nil (env : MapEnv) (kd : Bool) (st : GamesState) :
    processGameList env kd st [] = some st := rfl

theorem processGameList_cons_dup (env : MapEnv) (kd : Bool) (st : GamesState)
    (g : Game) (rest : List Game) (y : Game)
    (h : findGame st.games g.id = some y) :
    processGameList env kd st (g :: rest)
      = processGameList env kd
          { st with dataGames := if kd then st.dataGames ++ [g] else st.dataGames }
          rest := by
  simp only [processGameList, h]

theorem processGameList_cons_new (env : MapEnv) (kd : Bool) (st : GamesState)
    (g : Game) (rest : List Game) (g' : Game)
    (hreg : findGame st.games g.id = none) (hm : loadGameMap env g = some g') :
    processGameList env kd st (g :: rest)
      = processGameList env kd ⟨st.games ++ [g'], st.dataGames ++ [g']⟩ rest := by
  simp only [processGameList, hreg, hm]

/-- C9: an inline duplicate (`g2`, same id as `g1`) stays in the
client-facing `data["games"]` list even though the registry keeps only
the first definition, while a fragment duplicate (`g3`) is appended to
neither; a fresh fragment game (`g4`) is appended to both. -/
theorem inline_duplicate_remains_in_client_list (env : MapEnv)
    (g1 g2 g3 g4 : Game) (h2 : g2.id = g1.id) (h3 : g3.id = g1.id)
    (h4 : g4.id ≠ g1.id) (hm1 : g1.map_path = none) (hm4 : g4.map_path = none) :
    loadGames env (some [g1, g2]) [some (some [g3])]
      = some ⟨[g1], [g1, g2]⟩ ∧
    loadGames env (some [g1, g2]) [some (some [g4])]
      = some ⟨[g1, g4], [g1, g2, g4]⟩ := by
  have hload1 : loadGameMap env g1 = some g1 := by
    unfold loadGameMap
    rw [hm1]
  have hload4 : loadGameMap env g4 = some g4 := by
    unfold loadGameMap
    rw [hm4]
  have e2 : findGame [g1] g2.id = some g1 := by
    rw [findGame_singleton]
    simp [h2]
  have e3 : findGame [g1] g3.id = some g1 := by
    rw [findGame_singleton]
    simp [h3]
  have e4 : findGame [g1] g4.id = none := by
    rw [findGame_singleton]
    have : (g1.id == g4.id) = false := by
      simp only [beq_eq_false_iff_ne, ne_eq]
      exact fun hc => h4 hc.symm
    simp [this]
  have p1 : processGameList env true ⟨[], []⟩ [g1, g2] = some ⟨[g1], [g1, g2]⟩ := by
    rw [processGameList_cons_new env true ⟨[], []⟩ g1 [g2] g1 rfl hload1]
    rw [processGameList_cons_dup env true ⟨[] ++ [g1], [] ++ [g1]⟩ g2 [] g1 e2]
    rw [processGameList_nil]
    rfl
  constructor
  · have f1 : loadFragments env ⟨[g1], [g1, g2]⟩ [some (some [g3])]
        = some ⟨[g1], [g1, g2]⟩ := by
      show (match processGameList env false ⟨[g1], [g1, g2]⟩ [g3] with
            | none => none
            | some st' => loadFragments env st' []) = some ⟨[g1], [g1, g2]⟩
      rw [processGameList_cons_dup env false ⟨[g1], [g1, g2]⟩ g3 [] g1 e3]
      rw [processGameList_nil]
      rfl
    show (match processGameList env true ⟨[], []⟩ [g1, g2] with
          | none => none
          | some st => loadFragments env st [some (some [g3])])
        = some ⟨[g1], [g1, g2]⟩
    rw [p1]
    exact f1
  · have f2 : loadFragments env ⟨[g1], [g1, g2]⟩ [some (some [g4])]
        = some ⟨[g1, g4], [g1, g2, g4]⟩ := by
      show (match processGameList env false ⟨[g1], [g1, g2]⟩ [g4] with
            | none => none
            | some st' => loadFragments env st' []) = some ⟨[g1, g4], [g1, g2, g4]⟩
      rw [processGameList_cons_new env false ⟨[g1], [g1, g2]⟩ g4 [] g4 e4 hload4]
      rw [processGameList_nil]
      rfl
    show (match processGameList env true ⟨[], []⟩ [g1, g2] with
          | none => none
          | some st => loadFragments env st [some (some [g4])])
        = some ⟨[g1, g4], [g1, g2, g4]⟩
    rw [p1]
    exact f2

/-- Witness for the client-list theorem at concrete games. -/
theorem inline_duplicate_remains_in_client_list_witness :
    loadGames noMaps (some [gameA1, gameA2]) [some (some [gameA3])]
      = some ⟨[gameA1], [gameA1, gameA2]⟩ ∧
    loadGames noMaps (some [gameA1, gameA2]) [some (some [gameB])]
      = some ⟨[gameA1, gameB], [gameA1, gameA2, gameB]⟩ :=
  inline_duplicate_remains_in_client_list noMaps gameA1 gameA2 gameA3 gameB
    rfl rfl (by decide) rfl rfl

/-! ### Claim C5: get_game lookup -/

/-- C5: `get_game(version, mode)` returns the first registered game, in
registration order, whose `mode` and `version` both equal the arguments
(`List.find?` on the insertion-ordered registry); it returns `None` for
an empty registry or when nothing matches, and a game lacking either
field never satisfies the predicate, so it is skipped, not an error. -/
theorem get_game_first_match :
    (∀ (games : List Game) (v m : String),
      getGame games v m = games.find? (gameMatches m v)) ∧
    (∀ (m v : String) (g : Game),
      gameMatches m v g = true ↔ (g.mode = some m ∧ g.version = some v)) := by
  constructor
  · intro games v m
    induction games with
    | nil => rfl
    | cons g rest ih =>
      show (match g.mode, g.version with
            | some gm, some gv =>
              if gm == m && gv == v then some g else getGame rest v m
            | _, _ => getGame rest v m)
          = List.find? (gameMatches m v) (g :: rest)
      cases hmo : g.mode with
      | none =>
        have hg : gameMatches m v g = false := by simp [gameMatches, hmo]
        simp [List.find?, hg, ih]
      | some gm =>
        cases hve : g.version with
        | none =>
          have hg : gameMatches m v g = false := by simp [gameMatches, hmo, hve]
          simp [List.find?, hg, ih]
        | some gv =>
          have hg : gameMatches m v g = (gm == m && gv == v) := by
            simp [gameMatches, hmo, hve]
          cases hb : gm == m && gv == v with
          | true => simp [List.find?, hg, hb]
          | false => simp [List.find?, hg, hb, ih]
  · intro m v g
    unfold gameMatches
    cases hmo : g.mode with
    | none => simp
    | some gm =>
      cases hve : g.version with
      | none => simp
      | some gv => simp [Bool.and_eq_true, beq_iff_eq]

/-! ### Claim C10: game_map is unguarded on the game id -/

/-- C10: `game_map(game_id, map_name)` is only safe for a registered id:
an unregistered id fails with `KeyError` instead of returning null; for
a registered game it returns null when the game has no `game_maps` or no
map named `map_name`, else the first matching map. -/
theorem game_map_requires_registered_id (reg : List Game) (gid mname : String) :
    (findGame reg gid = none → gameMap reg gid mname = .error ()) ∧
    (∀ g, findGame reg gid = some g →
      gameMap reg gid mname
        = .ok (g.game_maps.bind (fun ms => ms.find? (fun m => m.name == mname)))) := by
  constructor
  · intro h
    unfold gameMap
    rw [h]
  · intro g h
    unfold gameMap
    rw [h]
    cases hgm : g.game_maps with
    | none => simp [hgm]
    | some ms => simp [hgm]

/-- Witness for the `game_map` theorem: the empty registry raises
`KeyError` for id `"g"`, and a registered game with a `"Lair"` map
returns that map. -/
theorem game_map_requires_registered_id_witness :
    gameMap [] "g" "Lair" = .error () ∧
    gameMap [{ id := "g", game_maps := some [⟨"Lair"⟩] }] "g" "Lair"
      = .ok (some ⟨"Lair"⟩) :=
  ⟨(game_map_requires_registered_id [] "g" "Lair").1 rfl,
   ((game_map_requires_registered_id [{ id := "g", game_maps := some [⟨"Lair"⟩] }]
      "g" "Lair").2 _ rfl).trans (by rfl)⟩

/-! ### Identity lemmas -/

theorem optOr_none_right {α : Type} (a : Option α) : optOr a none = a := by
  cases a <;> rfl

theorem processDevRows_jan_mono (dj : Bool) :
    ∀ (rows : List (List String)) (dt : List (String × List String))
      (jan : List String) (dt' : List (String × List String)) (jan' : List String),
    processDevRows dj rows dt jan = .ok (dt', jan') → ∀ x ∈ jan, x ∈ jan' := by
  intro rows
  induction rows with
  | nil =>
    intro dt jan dt' jan' h x hx
    simp only [processDevRows, Except.ok.injEq, Prod.mk.injEq] at h
    exact h.2 ▸ hx
  | cons row rest ih =>
    intro dt jan dt' jan' h x hx
    cases row with
    | nil => simp [processDevRows] at h
    | cons r0 rtl =>
      simp only [processDevRows] at h
      refine ih _ _ _ _ h x ?_
      cases dj
      · exact hx
      · exact List.mem_append_left _ hx

theorem processDevRows_total (dj : Bool) :
    ∀ (rows : List (List String)) (dt : List (String × List String))
      (jan : List String), (∀ r ∈ rows, r ≠ []) →
    ∃ p, processDevRows dj rows dt jan = .ok p := by
  intro rows
  induction rows with
  | nil => intro dt jan _; exact ⟨(dt, jan), rfl⟩
  | cons row rest ih =>
    intro dt jan hr
    cases row with
    | nil => exact absurd rfl (hr [] (List.mem_cons_self _ _))
    | cons r0 rtl =>
      simp only [processDevRows]
      exact ih _ _ (fun r h => hr r (List.mem_cons_of_mem _ h))

theorem processTitleRows_total :
    ∀ (rows : List (List String)) (pt : List (String × List String)),
    (∀ r ∈ rows, r ≠ []) → ∃ q, processTitleRows rows pt = .ok q := by
  intro rows
  induction rows with
  | nil => intro pt _; exact ⟨pt, rfl⟩
  | cons row rest ih =>
    intro pt hr
    cases row with
    | nil => exact absurd rfl (hr [] (List.mem_cons_self _ _))
    | cons r0 rtl =>
      simp only [processTitleRows]
      exact ih _ (fun r h => hr r (List.mem_cons_of_mem _ h))

/-- Shape of a successful `loadIdentity`: the admins set is the
lowercased `server_admins` list, and the janitors set contains the
lowercased `server_janitors` and `server_admins` entries (plus whatever
the devteam pass added). -/
theorem loadIdentity_ok_janitors (cfg : PrimaryConfig) (st : IdState)
    (h : loadIdentity cfg = .ok st) :
    st.admins = (cfg.server_admins.getD []).map pyLower ∧
    ∀ x, x ∈ ((cfg.server_janitors.getD []).map pyLower ++
        (cfg.server_admins.getD []).map pyLower) → x ∈ st.janitors := by
  unfold loadIdentity at h
  split at h
  · cases h
  · cases h
  · rename_i js ads hjs hads
    have hjs' : js = (cfg.server_janitors.getD []).map pyLower := by
      by_cases hc : pyTruthy cfg.server_janitors = true
      · rw [if_pos hc] at hjs
        injection hjs with h'
        exact h'.symm
      · rw [if_neg hc] at hjs
        exact Option.noConfusion hjs
    have hads' : ads = (cfg.server_admins.getD []).map pyLower := by
      by_cases hc : pyTruthy cfg.server_admins = true
      · rw [if_pos hc] at hads
        injection hads with h'
        exact h'.symm
      · rw [if_neg hc] at hads
        exact Option.noConfusion hads
    split at h
    · cases h
    · rename_i dt jan hdev
      split at h
      · cases h
      · rename_i pt hti
        injection h with h'
        subst h'
        refine ⟨hads', ?_⟩
        intro x hx
        rw [← hjs', ← hads'] at hx
        cases hdf : cfg.devteam_file with
        | none =>
          rw [hdf] at hdev
          injection hdev with h2
          cases h2
          exact hx
        | some rows =>
          rw [hdf] at hdev
          exact processDevRows_jan_mono _ rows [] (js ++ ads) dt jan hdev x hx

/-! ### Claim C2: janitors ⊇ admins -/

/-- C2 (amended): after every successful load the janitors set contains
every admin; but a configuration whose `server_janitors` key is absent
or empty fails the load with `AttributeError` on `self.janitors`, and
one whose `server_admins` key is absent or empty fails with
`AttributeError` on `self.admins` -- the omitted-key configurations
never load successfully. -/
theorem janitors_superset_of_admins :
    (∀ (cfg : PrimaryConfig) (st : IdState), loadIdentity cfg = .ok st →
      ∀ a ∈ st.admins, a ∈ st.janitors) ∧
    (∀ cfg : PrimaryConfig, pyTruthy cfg.server_janitors = false →
      loadIdentity cfg = .error (.attrError "janitors")) ∧
    (∀ cfg : PrimaryConfig, pyTruthy cfg.server_janitors = true →
      pyTruthy cfg.server_admins = false →
      loadIdentity cfg = .error (.attrError "admins")) := by
  refine ⟨?_, ?_, ?_⟩
  · intro cfg st h a ha
    have hc := loadIdentity_ok_janitors cfg st h
    rw [hc.1] at ha
    exact hc.2 a (List.mem_append_right _ ha)
  · intro cfg hj
    unfold loadIdentity
    rw [if_neg (by simp [hj])]
  · intro cfg hj ha
    unfold loadIdentity
    rw [if_pos hj, if_neg (by simp [ha])]

/-- C2 counterexample: the claim includes configurations that omit
`server_admins`; such a configuration never reaches a successful load --
`self.janitors.update(self.admins)` dies with `AttributeError`. -/
theorem omitted_admins_key_fails_to_load :
    loadIdentity cfgNoAdmins = .error (.attrError "admins") := rfl

/-- Witness for the janitors-superset theorem: a loaded admin is a
janitor, and the two omitted-key failure modes at concrete configs. -/
theorem janitors_superset_of_admins_witness :
    "adm" ∈ stDevJan.janitors ∧
    loadIdentity {} = .error (.attrError "janitors") ∧
    loadIdentity cfgNoAdmins = .error (.attrError "admins") :=
  ⟨janitors_superset_of_admins.1 cfgDevJan stDevJan rfl "adm" (by decide),
   janitors_superset_of_admins.2.1 {} rfl,
   janitors_superset_of_admins.2.2 cfgNoAdmins rfl rfl⟩

/-! ### Claim C3: devs_are_server_janitors and case normalization -/

/-- C3: with `devs_are_server_janitors` enabled the devteam row
`Foo Bar` is added to the janitors set with its case intact
(`self.janitors.update(row)` does not lowercase), while
`is_server_janitor` lowercases the query -- so neither `Foo` nor `foo`
is recognized as a janitor, although the lowercased configured janitor
`jan` is.  This contradicts the roster-absorption claim and the
loader's own lowercased-set convention. -/
theorem devteam_janitors_keep_raw_case :
    loadIdentity cfgDevJan = .ok stDevJan ∧
    "Foo" ∈ stDevJan.janitors ∧ "Bar" ∈ stDevJan.janitors ∧
    isServerJanitor stDevJan "Foo" = false ∧
    isServerJanitor stDevJan "foo" = false ∧
    isServerJanitor stDevJan "jan" = true :=
  ⟨rfl, by decide, by decide, rfl, rfl, rfl⟩

/-! ### Claim C4: title precedence -/

theorem foldl_title_overwrite (p : String → Bool) :
    ∀ (l : List String) (acc : Option String),
    l.foldl (fun title t => if p t then some t else title) acc
      = optOr (l.filter p).getLast? acc := by
  intro l
  induction l with
  | nil => intro acc; rfl
  | cons t rest ih =>
    intro acc
    rw [List.foldl_cons, ih]
    cases hp : p t with
    | false =>
      rw [List.filter_cons_of_neg (by simp [hp])]
      simp [hp]
    | true =>
      rw [List.filter_cons_of_pos (by simp [hp])]
      simp only [hp, if_true]
      cases hf : rest.filter p with
      | nil => simp
      | cons x xs =>
        rw [List.getLast?_cons_cons]
        have hs : ((x :: xs).getLast?).isSome := by
          rw [List.getLast?_isSome]
          simp
        obtain ⟨y, hy⟩ := Option.isSome_iff_exists.mp hs
        rw [hy]
        rfl

/-- C4 counterexample: with the claim's capitalized
`title_names = ["Slayer", "Champion"]` and a roster placing `alice`
under both titles, classification yields `normal`, not `Champion` --
the roster keys were lowercased at load time and the scan compares the
configured names exactly. -/
theorem capitalized_title_names_yield_normal :
    loadIdentity cfgTitles = .ok stTitles ∧
    getNerd stTitles cfgTitles.title_names "alice" = ⟨"normal", none⟩ ∧
    Nerd.mk "normal" none ≠ Nerd.mk "Champion" none :=
  ⟨rfl, rfl, by decide⟩

/-- C4 (amended): the title scan walks `title_names` in configured
order and the last configured name that (exactly) equals a lowercased
roster key containing the user wins; with lowercase
`title_names = ["slayer", "champion"]` and `alice` under both roster
titles, classification yields `champion`. -/
theorem title_precedence_last_match_wins :
    (∀ (st : IdState) (tns : Option (List String)) (u : String),
      getPlayerTitle st tns u
        = ((tns.getD []).filter (fun t => titleHas st u t)).getLast?) ∧
    (loadIdentity cfgTitlesLower = .ok stTitles ∧
     getNerd stTitles cfgTitlesLower.title_names "alice" = ⟨"champion", none⟩) := by
  refine ⟨?_, rfl, rfl⟩
  intro st tns u
  unfold getPlayerTitle
  by_cases hpt : st.playerTitles.isEmpty = true
  · rw [if_pos hpt]
    have hplE : st.playerTitles = [] := List.isEmpty_iff.mp hpt
    have hall : ∀ t ∈ tns.getD [], ¬(titleHas st u t = true) := by
      intro t _
      unfold titleHas assocFind
      rw [hplE]
      simp
    rw [List.filter_eq_nil_iff.mpr hall]
    rfl
  · rw [if_neg hpt]
    by_cases htn : pyTruthy tns = true
    · rw [if_neg (by simp [htn])]
      have hb : (fun (title : Option String) t =>
          match assocFind st.playerTitles t with
          | none => title
          | some members =>
            if members.contains (pyLower u) then some t else title)
          = (fun (title : Option String) t =>
              if titleHas st u t then some t else title) := by
        funext title t
        unfold titleHas
        cases assocFind st.playerTitles t with
        | none => rfl
        | some ms => cases hc : ms.contains (pyLower u) <;> simp [hc]
      rw [hb, foldl_title_overwrite, optOr_none_right]
    · have hbf : pyTruthy tns = false := by
        cases hq : pyTruthy tns
        · rfl
        · exact absurd hq htn
      rw [if_pos (by simp [hbf])]
      have hnil : tns.getD [] = [] := by
        cases tns with
        | none => rfl
        | some l =>
          simp only [pyTruthy, Bool.not_eq_false'] at hbf
          rw [Option.getD_some]
          exact List.isEmpty_iff.mp hbf
      rw [hnil]
      rfl

/-! ### Claim C8: zero-token roster rows -/

/-- C8 (amended): a zero-token (blank) roster row is not skipped -- both
roster loops die on it with an uncaught `IndexError` -- while rosters
whose rows all carry at least one token load successfully. -/
theorem roster_zero_token_rows :
    (∀ (dj : Bool) (rs : List (List String)) (dt : List (String × List String))
       (jan : List String),
      processDevRows dj ([] :: rs) dt jan = .error .indexError) ∧
    (∀ (rs : List (List String)) (pt : List (String × List String)),
      processTitleRows ([] :: rs) pt = .error .indexError) ∧
    (∀ (sa sj : List String) (dj : Bool) (drows trows : List (List String))
       (tns : Option (List String)),
      sa ≠ [] → sj ≠ [] → (∀ r ∈ drows, r ≠ []) → (∀ r ∈ trows, r ≠ []) →
      ∃ st, loadIdentity
        { server_admins := some sa, server_janitors := some sj,
          devteam_file := some drows, devs_are_server_janitors := dj,
          title_names := tns, player_title_file := some trows } = .ok st) := by
  refine ⟨fun dj rs dt jan => rfl, fun rs pt => rfl, ?_⟩
  intro sa sj dj drows trows tns hsa hsj hd ht
  have hsa' : pyTruthy (some sa) = true := by
    cases sa with
    | nil => exact absurd rfl hsa
    | cons a l => rfl
  have hsj' : pyTruthy (some sj) = true := by
    cases sj with
    | nil => exact absurd rfl hsj
    | cons a l => rfl
  unfold loadIdentity
  simp only [hsa', hsj', if_true, Option.getD_some]
  obtain ⟨⟨dt, jan⟩, hdev⟩ := processDevRows_total dj drows []
    ((sj.map pyLower) ++ (sa.map pyLower)) hd
  rw [hdev]
  cases htn : pyTruthy tns with
  | false =>
    simp only [htn, Bool.false_and, if_false]
    exact ⟨_, rfl⟩
  | true =>
    obtain ⟨pt, hpt⟩ := processTitleRows_total trows [] ht
    simp only [htn, Option.isSome_some, Bool.and_true, if_true]
    rw [hpt]
    exact ⟨_, rfl⟩

/-- C8 counterexample: a devteam roster with a trailing blank line makes
the load fail with an uncaught `IndexError` instead of skipping it. -/
theorem blank_roster_row_crashes_load :
    loadIdentity cfgBlankRow = .error .indexError := rfl

/-- Witness for the zero-token-row theorem at concrete rosters. -/
theorem roster_zero_token_rows_witness :
    processDevRows false [[]] [] [] = .error .indexError ∧
    processTitleRows [[]] [] = .error .indexError ∧
    ∃ st, loadIdentity
      { server_admins := some ["a"], server_janitors := some ["j"],
        devteam_file := some [["d", "e"]], devs_are_server_janitors := true,
        title_names := some ["t"], player_title_file := some [["t", "u"]] } = .ok st :=
  ⟨roster_zero_token_rows.1 false [] [] [],
   roster_zero_token_rows.2.1 [] [],
   roster_zero_token_rows.2.2 ["a"] ["j"] true [["d", "e"]] [["t", "u"]]
     (some ["t"]) (by decide) (by decide) (by decide) (by decide)⟩

/-! ### Claim C6: parameter extraction -/

theorem mem_setInsert (l : List String) (y x : String) :
    x ∈ setInsert l y ↔ (x ∈ l ∨ x = y) := by
  unfold setInsert
  by_cases hc : l.contains y = true
  · have hy : y ∈ l := by
      rw [← List.elem_iff]
      exact hc
    rw [if_pos hc]
    constructor
    · exact Or.inl
    · rintro (h | h)
      · exact h
      · exact h ▸ hy
  · rw [if_neg hc]
    simp [List.mem_append]

theorem setInsert_nodup (l : List String) (y : String) (h : l.Nodup) :
    (setInsert l y).Nodup := by
  unfold setInsert
  by_cases hc : l.contains y = true
  · rw [if_pos hc]
    exact h
  · rw [if_neg hc]
    refine nodup_concat l y h ?_
    intro hy
    exact hc (List.elem_iff.mpr hy)

theorem extractParams_mem_aux :
    ∀ (toks acc : List String) (x : String),
    x ∈ toks.foldl (fun ps t => if t.isEmpty then ps else setInsert ps t) acc ↔
      (x ∈ acc ∨ (x ∈ toks ∧ x ≠ "")) := by
  intro toks
  induction toks with
  | nil =>
    intro acc x
    simp
  | cons t rest ih =>
    intro acc x
    rw [List.foldl_cons]
    cases ht : t.isEmpty with
    | true =>
      have ht' : t = "" := (String.isEmpty_iff t).mp ht
      rw [if_pos rfl, ih]
      subst ht'
      constructor
      · rintro (h | ⟨h1, h2⟩)
        · exact Or.inl h
        · exact Or.inr ⟨List.mem_cons_of_mem _ h1, h2⟩
      · rintro (h | ⟨h1, h2⟩)
        · exact Or.inl h
        · rcases List.mem_cons.mp h1 with h1 | h1
          · exact absurd h1 h2
          · exact Or.inr ⟨h1, h2⟩
    | false =>
      have ht' : t ≠ "" := by
        intro he
        rw [he] at ht
        cases ht
      rw [if_neg (by simp), ih]
      constructor
      · rintro (h | ⟨h1, h2⟩)
        · rcases (mem_setInsert acc t x).mp h with h' | h'
          · exact Or.inl h'
          · exact Or.inr ⟨h' ▸ List.mem_cons_self _ _, h' ▸ ht'⟩
        · exact Or.inr ⟨List.mem_cons_of_mem _ h1, h2⟩
      · rintro (h | ⟨h1, h2⟩)
        · exact Or.inl ((mem_setInsert acc t x).mpr (Or.inl h))
        · rcases List.mem_cons.mp h1 with h1 | h1
          · exact Or.inl ((mem_setInsert acc t x).mpr (Or.inr h1))
          · exact Or.inr ⟨h1, h2⟩

theorem extractParams_nodup_aux :
    ∀ (toks acc : List String), acc.Nodup →
    (toks.foldl (fun ps t => if t.isEmpty then ps else setInsert ps t) acc).Nodup := by
  intro toks
  induction toks with
  | nil =>
    intro acc h
    exact h
  | cons t rest ih =>
    intro acc h
    rw [List.foldl_cons]
    cases ht : t.isEmpty with
    | true =>
      rw [if_pos rfl]
      exact ih acc h
    | false =>
      rw [if_neg (by simp)]
      exact ih _ (setInsert_nodup acc t h)

/-- C6: a command's `params` is the set of distinct truthy (nonempty)
field names of its argument template -- duplicate-free, with membership
exactly the nonempty parsed field names, order-insensitive by being a
set; end to end, `argument = "ban {target} for {reason}"` yields the
set with `target` and `reason`, and `argument = "list"` yields the
empty set. -/
theorem janitor_command_params :
    (∀ (toks : List String),
      (extractParams toks).Nodup ∧
      ∀ x, x ∈ extractParams toks ↔ (x ∈ toks ∧ x ≠ "")) ∧
    loadJanitorCommands (some [cmdBan])
      = .ok [("c1",
          ⟨"c1", "n1", "a1", "ban {target} for {reason}", ["target", "reason"]⟩)] ∧
    loadJanitorCommands (some [cmdList])
      = .ok [("c2", ⟨"c2", "n2", "a2", "list", []⟩)] := by
  refine ⟨fun toks => ⟨extractParams_nodup_aux toks [] List.nodup_nil, ?_⟩, rfl, rfl⟩
  intro x
  rw [show extractParams toks
        = toks.foldl (fun ps t => if t.isEmpty then ps else setInsert ps t) [] from rfl]
  rw [extractParams_mem_aux]
  simp

/-! ### Claim C7: required janitor-command fields -/

/-- C7 (amended): an entry missing a required field is fatal, reporting
the first missing field in the check order `id`, `name`, `action`,
`argument`, and no command table is produced; an entry with all four
fields present whose argument template parses is accepted (registered
under its id) and processing continues.  (An entry with all four fields
but a malformed template is instead killed by the template parser's
`ValueError`.) -/
theorem janitor_command_required_fields :
    (∀ (c : CmdDef) (rest : List CmdDef)
       (tbl : List (String × JanitorCommand)) (f : String),
      requiredMissing c = some f → jcGo (c :: rest) tbl = .error (.missingField f)) ∧
    (∀ (i n a arg : String) (toks : List String) (rest : List CmdDef)
       (tbl : List (String × JanitorCommand)),
      fieldTokens arg = .ok toks →
      jcGo (⟨some i, some n, some a, some arg⟩ :: rest) tbl
        = jcGo rest (assocSet tbl i ⟨i, n, a, arg, extractParams toks⟩)) ∧
    loadJanitorCommands (some [cmdNoId]) = .error (.missingField "id") := by
  refine ⟨?_, ?_, rfl⟩
  · rintro ⟨ci, cn, ca, cg⟩ rest tbl f h
    cases ci with
    | none =>
      simp only [requiredMissing, Option.isNone_none, if_true,
        Option.some.injEq] at h
      subst h
      rfl
    | some i =>
      cases cn with
      | none =>
        simp only [requiredMissing, Option.isNone_some, Option.isNone_none,
          Bool.false_eq_true, if_false, if_true, Option.some.injEq] at h
        subst h
        rfl
      | some n =>
        cases ca with
        | none =>
          simp only [requiredMissing, Option.isNone_some, Option.isNone_none,
            Bool.false_eq_true, if_false, if_true, Option.some.injEq] at h
          subst h
          rfl
        | some a =>
          cases cg with
          | none =>
            simp only [requiredMissing, Option.isNone_some, Option.isNone_none,
              Bool.false_eq_true, if_false, if_true, Option.some.injEq] at h
            subst h
            rfl
          | some g =>
            simp [requiredMissing] at h
  · intro i n a arg toks rest tbl h
    show (match fieldTokens arg with
          | .error m => Except.error (.valueError m)
          | .ok toks =>
            jcGo rest (assocSet tbl i ⟨i, n, a, arg, extractParams toks⟩))
        = jcGo rest (assocSet tbl i ⟨i, n, a, arg, extractParams toks⟩)
    rw [h]

/-- C7 counterexample: a definition with all four required fields
present but the malformed template `\x7bx` is not accepted -- the load
dies on the template parser's `ValueError` instead. -/
theorem malformed_template_not_accepted :
    loadJanitorCommands (some [cmdBadTemplate])
      = .error (.valueError "expected close brace before end of string") := rfl

/-- Witness for the required-fields theorem at concrete commands. -/
theorem janitor_command_required_fields_witness :
    jcGo [⟨none, none, none, some "list"⟩] [] = .error (.missingField "id") ∧
    jcGo [⟨some "i", some "n", some "a", some "list"⟩] []
      = jcGo [] (assocSet [] "i" ⟨"i", "n", "a", "list", extractParams []⟩) :=
  ⟨janitor_command_required_fields.1 ⟨none, none, none, some "list"⟩ [] [] "id" rfl,
   janitor_command_required_fields.2.1 "i" "n" "a" "list" [] [] [] rfl⟩

end Webtiles
